import Mathlib

/-!
Shallow embedding of the ThermoRover motion-control core
(src/main/fuzzy_control.c, src/main/encoder.c, src/main/motor_control.c,
src/main/main.c) together with proofs of the specification's claims about
the Drive Mapper, the odometry integrator, the command relay and the
control loop.  C floats are idealised as real numbers; C integer types are
embedded as ℤ (all values handled here stay far inside the int16 range);
the cast `(int16_t)(float)` truncates toward zero and is embedded as
`truncInt`.
-/

set_option maxHeartbeats 1000000

namespace ThermoRover

/-! ## Data model (fuzzy_control.h) -/

/-- Control mode enumeration (`fuzzy_control_mode_t` in fuzzy_control.h). -/
inductive fuzzy_control_mode_t where
  | FUZZY_MODE_ARCADE
  | FUZZY_MODE_TANK
  | FUZZY_MODE_CAR
  | FUZZY_MODE_SMOOTH
deriving DecidableEq

/-- Speed curve type (`fuzzy_curve_type_t` in fuzzy_control.h). -/
inductive fuzzy_curve_type_t where
  | FUZZY_CURVE_LINEAR
  | FUZZY_CURVE_QUADRATIC
  | FUZZY_CURVE_CUBIC
  | FUZZY_CURVE_SQRT
deriving DecidableEq

/-- Drive configuration (`fuzzy_config_t` in fuzzy_control.h).
`dead_zone`/`turn_factor` are C floats, embedded as ℝ; the duty limits are
`int16_t`, embedded as ℤ. -/
structure fuzzy_config_t where
  mode : fuzzy_control_mode_t
  curve : fuzzy_curve_type_t
  dead_zone : ℝ
  turn_factor : ℝ
  max_duty : ℤ
  min_duty : ℤ
  invert_left : Bool
  invert_right : Bool

/-- Motor command (`motor_command_t` in fuzzy_control.h): signed left/right
duties, `int16_t` embedded as ℤ. -/
structure motor_command_t where
  left_duty : ℤ
  right_duty : ℤ
deriving DecidableEq

/-! ## Drive Mapper helpers (fuzzy_control.c) -/

/-- `apply_dead_zone` from fuzzy_control.c: below the dead zone the
magnitude is rejected to 0, otherwise it is rescaled by
`(magnitude - dead_zone) / (1 - dead_zone)`. -/
noncomputable def apply_dead_zone (magnitude dead_zone : ℝ) : ℝ :=
  if magnitude < dead_zone then 0
  else (magnitude - dead_zone) / (1 - dead_zone)

/-- The divisor of the rescaling division inside `apply_dead_zone`
(the expression `1.0f - dead_zone` in fuzzy_control.c line 36). -/
def apply_dead_zone_denominator (dead_zone : ℝ) : ℝ := 1 - dead_zone

/-- The guard under which `apply_dead_zone` performs no division by zero:
either the early `magnitude < dead_zone` return is taken, or the divisor
`1 - dead_zone` is non-zero.  The C source has no explicit guard; this
predicate records when the executed division is mathematically defined. -/
def apply_dead_zone_div_defined (magnitude dead_zone : ℝ) : Prop :=
  magnitude < dead_zone ∨ apply_dead_zone_denominator dead_zone ≠ 0

/-- `apply_curve` from fuzzy_control.c. -/
noncomputable def apply_curve (magnitude : ℝ) : fuzzy_curve_type_t → ℝ
  | .FUZZY_CURVE_LINEAR => magnitude
  | .FUZZY_CURVE_QUADRATIC => magnitude * magnitude
  | .FUZZY_CURVE_CUBIC => magnitude * magnitude * magnitude
  | .FUZZY_CURVE_SQRT => Real.sqrt magnitude

/-- `normalize_angle` from fuzzy_control.c: the two while loops add or
subtract `2π` until the angle lies in `[0, 2π)`; on reals that terminating
loop computes exactly the remainder `angle - 2π·⌊angle/(2π)⌋`. -/
noncomputable def normalize_angle (angle : ℝ) : ℝ :=
  angle - 2 * Real.pi * ⌊angle / (2 * Real.pi)⌋

/-- `clamp` from fuzzy_control.c. -/
noncomputable def clamp (value mn mx : ℝ) : ℝ :=
  if value < mn then mn else if value > mx then mx else value

/-- The C cast `(int16_t)(float)`: truncation toward zero (all values cast
in this code fit in int16). -/
noncomputable def truncInt (x : ℝ) : ℤ :=
  if 0 ≤ x then ⌊x⌋ else ⌈x⌉

/-- `apply_min_duty` from fuzzy_control.c: a non-zero duty below the
minimum-duty floor is raised to the floor, sign preserved; zero stays
zero. -/
def apply_min_duty (duty min_duty : ℤ) : ℤ :=
  if duty = 0 then 0
  else if duty > 0 ∧ duty < min_duty then min_duty
  else if duty < 0 ∧ duty > -min_duty then -min_duty
  else duty

/-! ## Mode mapping functions (fuzzy_control.c) -/

/-- `process_arcade_mode` from fuzzy_control.c. -/
noncomputable def process_arcade_mode (angle magnitude : ℝ)
    (config : fuzzy_config_t) : motor_command_t :=
  let x := magnitude * Real.cos angle
  let y := magnitude * Real.sin angle
  let base_speed := y
  let turn_rate := x * config.turn_factor
  let left_speed := clamp (base_speed + turn_rate) (-1) 1
  let right_speed := clamp (base_speed - turn_rate) (-1) 1
  ⟨truncInt (left_speed * (config.max_duty : ℝ)),
   truncInt (right_speed * (config.max_duty : ℝ))⟩

/-- `process_tank_mode` from fuzzy_control.c. -/
noncomputable def process_tank_mode (angle magnitude : ℝ)
    (config : fuzzy_config_t) : motor_command_t :=
  let x := magnitude * Real.cos angle
  let y := magnitude * Real.sin angle
  let left_speed := clamp (y + x) (-1) 1
  let right_speed := clamp (y - x) (-1) 1
  ⟨truncInt (left_speed * (config.max_duty : ℝ)),
   truncInt (right_speed * (config.max_duty : ℝ))⟩

/-- The pair (left_speed, right_speed) computed by `process_car_mode` in
fuzzy_control.c, after the final multiplication by `magnitude` and before
duty scaling. -/
noncomputable def car_mode_speeds (angle magnitude : ℝ)
    (config : fuzzy_config_t) : ℝ × ℝ :=
  let a := normalize_angle angle
  let forward_component := Real.sin a
  let turn_component := |Real.cos a|
  let base_speed := forward_component
  let reduction := turn_component * config.turn_factor
  let lr : ℝ × ℝ :=
    if Real.cos a > 0 then (base_speed, base_speed * (1 - reduction))
    else (base_speed * (1 - reduction), base_speed)
  (lr.1 * magnitude, lr.2 * magnitude)

/-- `process_car_mode` from fuzzy_control.c. -/
noncomputable def process_car_mode (angle magnitude : ℝ)
    (config : fuzzy_config_t) : motor_command_t :=
  let s := car_mode_speeds angle magnitude config
  ⟨truncInt (s.1 * (config.max_duty : ℝ)),
   truncInt (s.2 * (config.max_duty : ℝ))⟩

/-- `process_smooth_mode` from fuzzy_control.c: arcade mixing with the turn
factor damped by the fixed constant 0.7. -/
noncomputable def process_smooth_mode (angle magnitude : ℝ)
    (config : fuzzy_config_t) : motor_command_t :=
  let smooth_turn_factor := config.turn_factor * 0.7
  let x := magnitude * Real.cos angle
  let y := magnitude * Real.sin angle
  let base_speed := y
  let turn_rate := x * smooth_turn_factor
  let left_speed := clamp (base_speed + turn_rate) (-1) 1
  let right_speed := clamp (base_speed - turn_rate) (-1) 1
  ⟨truncInt (left_speed * (config.max_duty : ℝ)),
   truncInt (right_speed * (config.max_duty : ℝ))⟩

/-- The tail of `fuzzy_control_process` (fuzzy_control.c lines 182-214):
everything after the dead-zone rescaling, applied to the already rescaled
magnitude — the zero shortcut, curve shaping, angle normalization, mode
dispatch, minimum-duty floor and per-side inversion. -/
noncomputable def fuzzy_process_shaped (angle magnitude : ℝ)
    (config : fuzzy_config_t) : motor_command_t :=
  if magnitude = 0 then ⟨0, 0⟩
  else
    let m := apply_curve magnitude config.curve
    let a := normalize_angle angle
    let raw : motor_command_t :=
      match config.mode with
      | .FUZZY_MODE_ARCADE => process_arcade_mode a m config
      | .FUZZY_MODE_TANK => process_tank_mode a m config
      | .FUZZY_MODE_CAR => process_car_mode a m config
      | .FUZZY_MODE_SMOOTH => process_smooth_mode a m config
    let floored : motor_command_t :=
      ⟨apply_min_duty raw.left_duty config.min_duty,
       apply_min_duty raw.right_duty config.min_duty⟩
    ⟨if config.invert_left then -floored.left_duty else floored.left_duty,
     if config.invert_right then -floored.right_duty else floored.right_duty⟩

/-- `fuzzy_control_process` from fuzzy_control.c, as a pure function of the
joystick input and the current configuration. -/
noncomputable def fuzzy_control_process (angle magnitude : ℝ)
    (config : fuzzy_config_t) : motor_command_t :=
  fuzzy_process_shaped angle (apply_dead_zone magnitude config.dead_zone) config

/-! ## Presets (fuzzy_control.c).  Each preset overwrites six fields of the
current configuration; `invert_left`/`invert_right` are not touched. -/

/-- `fuzzy_control_preset_gentle` from fuzzy_control.c, as the transformer
it applies to the current configuration. -/
def fuzzy_control_preset_gentle (c : fuzzy_config_t) : fuzzy_config_t :=
  { c with mode := .FUZZY_MODE_SMOOTH, curve := .FUZZY_CURVE_QUADRATIC,
           dead_zone := 0.10, turn_factor := 0.5, max_duty := 180, min_duty := 40 }

/-- `fuzzy_control_preset_normal` from fuzzy_control.c. -/
def fuzzy_control_preset_normal (c : fuzzy_config_t) : fuzzy_config_t :=
  { c with mode := .FUZZY_MODE_ARCADE, curve := .FUZZY_CURVE_QUADRATIC,
           dead_zone := 0.08, turn_factor := 0.7, max_duty := 255, min_duty := 35 }

/-- `fuzzy_control_preset_aggressive` from fuzzy_control.c. -/
def fuzzy_control_preset_aggressive (c : fuzzy_config_t) : fuzzy_config_t :=
  { c with mode := .FUZZY_MODE_TANK, curve := .FUZZY_CURVE_LINEAR,
           dead_zone := 0.05, turn_factor := 1.0, max_duty := 255, min_duty := 30 }

/-- `fuzzy_control_preset_precision` from fuzzy_control.c. -/
def fuzzy_control_preset_precision (c : fuzzy_config_t) : fuzzy_config_t :=
  { c with mode := .FUZZY_MODE_CAR, curve := .FUZZY_CURVE_CUBIC,
           dead_zone := 0.08, turn_factor := 0.6, max_duty := 150, min_duty := 40 }

/-! ## Quadrature Decoder / Odometry Integrator (encoder.c, encoder.h) -/

/-- Encoder bookkeeping state (`encoder_instance_t` in encoder.c, without
the opaque PCNT hardware handles).  `last_count` is `int32_t`, the
timestamp is `int64_t` microseconds; `rpm` and `distance_m` are floats,
embedded as ℝ. -/
structure encoder_instance_t where
  last_count : ℤ
  last_time_us : ℤ
  rpm : ℝ
  distance_m : ℝ

/-- `ENCODER_PULSES_PER_3_REVS` from encoder.h. -/
def ENCODER_PULSES_PER_3_REVS : ℤ := 1000

/-- `ENCODER_PPR = ENCODER_PULSES_PER_3_REVS / 3.0f` from encoder.h. -/
noncomputable def ENCODER_PPR : ℝ := (ENCODER_PULSES_PER_3_REVS : ℝ) / 3

/-- `ENCODER_CPR = ENCODER_PPR * 4.0f` from encoder.h (4x quadrature). -/
noncomputable def ENCODER_CPR : ℝ := ENCODER_PPR * 4

/-- The wheel circumference recomputed by `encoder_init` and
`encoder_set_wheel_diameter` in encoder.c: `(M_PI * diameter_mm) / 1000`. -/
noncomputable def wheel_circumference_m (wheel_diameter_mm : ℝ) : ℝ :=
  (Real.pi * wheel_diameter_mm) / 1000

/-- One wheel's block of `encoder_update` in encoder.c: given the freshly
read hardware count and the shared sample time, recompute rpm and
accumulate distance when the elapsed time is positive; in every case
advance `last_count` and `last_time_us` to the current readings.
`cpr` is `ENCODER_CPR` and `circ` the current `wheel_circumference_m`
global. -/
noncomputable def encoder_update_wheel (current_count current_time_us : ℤ)
    (cpr circ : ℝ) (e : encoder_instance_t) : encoder_instance_t :=
  let delta_count : ℤ := current_count - e.last_count
  let delta_time_us : ℤ := current_time_us - e.last_time_us
  if delta_time_us > 0 then
    let revolutions : ℝ := (delta_count : ℝ) / cpr
    let time_minutes : ℝ := (delta_time_us : ℝ) / 60000000
    { last_count := current_count, last_time_us := current_time_us,
      rpm := revolutions / time_minutes,
      distance_m := e.distance_m + revolutions * circ }
  else
    { e with last_count := current_count, last_time_us := current_time_us }

/-- `encoder_update` from encoder.c: both wheels are sampled against the
same `current_time_us`; a wheel whose count read failed (`none`) is left
untouched. -/
noncomputable def encoder_update (left_count right_count : Option ℤ)
    (current_time_us : ℤ) (circ : ℝ) (l r : encoder_instance_t) :
    encoder_instance_t × encoder_instance_t :=
  (match left_count with
   | some c => encoder_update_wheel c current_time_us ENCODER_CPR circ l
   | none => l,
   match right_count with
   | some c => encoder_update_wheel c current_time_us ENCODER_CPR circ r
   | none => r)

/-- `encoder_clear_left` / `encoder_clear_right` from encoder.c, on the
success path (`pcnt_unit_clear_count` returned `ESP_OK`): the count
baseline and the cumulative distance are zeroed; no other field of the
instance is written. -/
def encoder_clear (e : encoder_instance_t) : encoder_instance_t :=
  { e with last_count := 0, distance_m := 0 }

/-! ## Actuation Governor (motor_control.c, motor_control.h) -/

/-- `MOTOR_PWM_RESOLUTION` from motor_control.h. -/
def MOTOR_PWM_RESOLUTION : ℤ := 255

/-- `motor_set_left` / `motor_set_right` from motor_control.c: the duty is
clamped into `[-255, 255]` and encoded as the pair of compare values
(forward comparator, backward comparator); the non-driven side is held at
zero, and zero duty zeroes both sides. -/
def motor_set (duty : ℤ) : ℤ × ℤ :=
  let d := if duty > MOTOR_PWM_RESOLUTION then MOTOR_PWM_RESOLUTION
           else if duty < -MOTOR_PWM_RESOLUTION then -MOTOR_PWM_RESOLUTION
           else duty
  if d > 0 then (d, 0)
  else if d < 0 then (0, -d)
  else (0, 0)

/-- `motor_stop` from motor_control.c: both motors set to duty 0. -/
def motor_stop_outputs : (ℤ × ℤ) × (ℤ × ℤ) := (motor_set 0, motor_set 0)

/-! ## Command Relay and Control Loop (main.c) -/

/-- The capacity of the joystick command queue created in `app_main`
(`xQueueCreate(10, sizeof(joystick_cmd_t))`, main.c line 350). -/
def joystick_queue_length : ℕ := 10

/-- `xQueueSend(queue, cmd, 0)` as called by `websocket_control_callback`
in main.c: a zero-tick, never-blocking send to a bounded FIFO queue.  The
command is appended at the back when there is room; a full queue leaves
the queue unchanged and reports failure (the new command is dropped). -/
def xQueueSend {α : Type} (q : List α) (cmd : α) : List α × Bool :=
  if q.length < joystick_queue_length then (q ++ [cmd], true) else (q, false)

/-- `websocket_control_callback` from main.c: the queue contents after the
network-facing collaborator pushes one joystick command. -/
def websocket_control_callback {α : Type} (q : List α) (cmd : α) : List α :=
  (xQueueSend q cmd).1

/-- `xQueueReceive` as called by `motor_control_task` in main.c: a FIFO
receive returning the oldest queued element, or `none` on timeout with an
empty queue. -/
def xQueueReceive {α : Type} (q : List α) : Option α × List α :=
  match q with
  | [] => (none, [])
  | c :: rest => (some c, rest)

/-- `MOTOR_CONTROL_RATE_HZ` from main.c. -/
def MOTOR_CONTROL_RATE_HZ : ℕ := 50

/-- The Control Loop period in milliseconds
(`1000 / MOTOR_CONTROL_RATE_HZ` as used in `vTaskDelay`, main.c line 214). -/
def control_period_ms : ℕ := 1000 / MOTOR_CONTROL_RATE_HZ

/-- The bounded wait used by `motor_control_task` when receiving from the
joystick queue: `TickType_t timeout = pdMS_TO_TICKS(100)` (main.c
line 194), in milliseconds. -/
def joystick_receive_timeout_ms : ℕ := 100

/-- The last-commanded duties recorded by the Control Loop for the
Telemetry Loop (`current_left_pwm` / `current_right_pwm` in main.c). -/
structure control_pwm_state where
  current_left_pwm : ℤ
  current_right_pwm : ℤ
deriving DecidableEq

/-- One iteration of the `motor_control_task` loop body in main.c, as a
function of the outcome of the queue receive: on a received command, run
the Drive Mapper and actuate both motors, recording the duties; on a
timeout, `motor_stop()` and record zero.  Returns the recorded pwm state
and the comparator outputs commanded to the (left, right) motors. -/
noncomputable def motor_control_step (received : Option (ℝ × ℝ))
    (config : fuzzy_config_t) : control_pwm_state × ((ℤ × ℤ) × (ℤ × ℤ)) :=
  match received with
  | some (angle, magnitude) =>
      let mc := fuzzy_control_process angle magnitude config
      (⟨mc.left_duty, mc.right_duty⟩, (motor_set mc.left_duty, motor_set mc.right_duty))
  | none => (⟨0, 0⟩, motor_stop_outputs)

/-- The configuration installed by `fuzzy_control_init` in fuzzy_control.c
(the defaults `FUZZY_DEAD_ZONE = 0.08`, `FUZZY_TURN_FACTOR = 0.7`,
`FUZZY_MAX_DUTY = 255`, `FUZZY_MIN_DUTY = 35` from fuzzy_control.h). -/
def fuzzy_control_init_config : fuzzy_config_t :=
  ⟨.FUZZY_MODE_ARCADE, .FUZZY_CURVE_QUADRATIC, 0.08, 0.7, 255, 35, false, false⟩

/-! ## Claims about the Command Relay and the Control Loop -/

/-- C1: the joystick queue created in `app_main` has capacity 10 and
`websocket_control_callback` appends to it; a second command pushed before
the first is consumed queues behind it, and the FIFO receive yields the
older command, not the most recent one — refuting the claim that an
unconsumed previous command is overwritten. -/
theorem relay_overwrite_counterexample :
    websocket_control_callback (websocket_control_callback ([] : List ℕ) 1) 2 = [1, 2] ∧
    xQueueReceive (websocket_control_callback (websocket_control_callback ([] : List ℕ) 1) 2)
      = (some 1, [2]) ∧
    (1 : ℕ) ≠ 2 := by
  refine ⟨rfl, rfl, by decide⟩

/-- C1 (amended): the push from `websocket_control_callback` never blocks
(zero-tick `xQueueSend`); a new command is appended behind any unconsumed
previous commands while the 10-slot queue has room, a push to a full queue
drops the new command and reports failure, and the Control Loop's receive
yields the oldest queued command. -/
theorem relay_fifo_semantics (α : Type) (q : List α) (cmd : α) :
    (websocket_control_callback q cmd =
      if q.length < joystick_queue_length then q ++ [cmd] else q) ∧
    ((xQueueSend q cmd).2 = false ↔ joystick_queue_length ≤ q.length) ∧
    (∀ (x : α) (rest : List α), xQueueReceive (x :: rest) = (some x, rest)) := by
  refine ⟨?_, ?_, fun x rest => rfl⟩
  · by_cases h : q.length < joystick_queue_length <;>
      simp [websocket_control_callback, xQueueSend, h]
  · by_cases h : q.length < joystick_queue_length
    · simp only [xQueueSend, if_pos h]
      simp only [Bool.true_eq_false, false_iff]
      omega
    · simp only [xQueueSend, if_neg h]
      simp only [true_iff]
      omega

/-- C1 witness: the amended relay semantics evaluated on a one-element
queue of naturals. -/
theorem relay_fifo_semantics_witness :
    (websocket_control_callback [5] 7 =
      if [5].length < joystick_queue_length then [5] ++ [7] else [5]) ∧
    ((xQueueSend [5] (7 : ℕ)).2 = false ↔ joystick_queue_length ≤ [5].length) ∧
    (∀ (x : ℕ) (rest : List ℕ), xQueueReceive (x :: rest) = (some x, rest)) :=
  relay_fifo_semantics ℕ [5] 7

/-- C2: the Control Loop's bounded receive wait is 100 ms
(`pdMS_TO_TICKS(100)`), not one 20 ms period of the nominal 50 Hz loop —
refuting the claim that the wait is at most one period. -/
theorem control_wait_counterexample :
    joystick_receive_timeout_ms = 100 ∧ control_period_ms = 20 ∧
    ¬ joystick_receive_timeout_ms ≤ control_period_ms := by
  refine ⟨rfl, rfl, by decide⟩

/-- C2 (amended): the Control Loop waits on the relay for at most 100 ms
(five nominal periods); whenever that wait times out with no new command,
the very next actuation commands exactly (0,0) to both motors
(`motor_stop`) and the recorded last-commanded duties are both zero. -/
theorem starvation_forces_stop (config : fuzzy_config_t) :
    motor_control_step none config = (⟨0, 0⟩, ((0, 0), (0, 0))) ∧
    joystick_receive_timeout_ms = 5 * control_period_ms := by
  exact ⟨rfl, rfl⟩

/-! ## Claims about the encoder / odometry integrator -/

/-- C5: `encoder_clear_left` / `encoder_clear_right` zero the count
baseline and the cumulative distance but do not touch `rpm`: clearing an
instance whose rpm is 5 leaves rpm = 5 ≠ 0 — refuting the claim that the
reported rpm is 0 after a clear. -/
theorem clear_stale_rpm_counterexample :
    (encoder_clear ⟨7, 100, 5, 3⟩).rpm = 5 ∧ (encoder_clear ⟨7, 100, 5, 3⟩).rpm ≠ 0 :=
  ⟨rfl, by show (5 : ℝ) ≠ 0; norm_num⟩

/-- C5 (amended): on the success path a clear resets the count baseline
and the cumulative distance to zero, while the reported rpm (and the last
sample time) retain their previous values until the next `encoder_update`
pass recomputes them. -/
theorem encoder_clear_spec (e : encoder_instance_t) :
    (encoder_clear e).last_count = 0 ∧ (encoder_clear e).distance_m = 0 ∧
    (encoder_clear e).rpm = e.rpm ∧ (encoder_clear e).last_time_us = e.last_time_us :=
  ⟨rfl, rfl, rfl, rfl⟩

/-- C9: in an `encoder_update` pass where a wheel's elapsed time since its
last sample is non-positive, that wheel's rpm and cumulative distance are
left unchanged, but `last_count` and `last_time_us` are still advanced to
the current readings. -/
theorem nonpositive_delta_time_skip (cc ct : ℤ) (cpr circ : ℝ)
    (e : encoder_instance_t) (h : ct - e.last_time_us ≤ 0) :
    encoder_update_wheel cc ct cpr circ e = ⟨cc, ct, e.rpm, e.distance_m⟩ := by
  have h' : ¬ ct - e.last_time_us > 0 := not_lt.mpr h
  simp [encoder_update_wheel, h']

/-- C9 witness: a wheel sampled at the very same timestamp as its previous
sample keeps rpm = 2 and distance = 1 while its baseline advances. -/
theorem nonpositive_delta_time_skip_witness :
    (5 : ℤ) - 5 ≤ 0 ∧
    encoder_update_wheel 3 5 ENCODER_CPR 1 ⟨0, 5, 2, 1⟩ = ⟨3, 5, 2, 1⟩ :=
  ⟨by norm_num, nonpositive_delta_time_skip 3 5 ENCODER_CPR 1 ⟨0, 5, 2, 1⟩ (by norm_num)⟩

/-! ## Claims about presets -/

/-- C7: applying a preset does not replace every field of the
configuration: `fuzzy_control_preset_normal` leaves `invert_left`
unchanged, so two prior configurations differing only in `invert_left`
yield different configurations after the same preset — refuting
whole-structure replacement. -/
theorem preset_partial_counterexample :
    (fuzzy_control_preset_normal
      ⟨.FUZZY_MODE_TANK, .FUZZY_CURVE_LINEAR, 0, 0, 0, 0, true, false⟩).invert_left = true ∧
    (fuzzy_control_preset_normal
      ⟨.FUZZY_MODE_TANK, .FUZZY_CURVE_LINEAR, 0, 0, 0, 0, false, false⟩).invert_left = false ∧
    fuzzy_control_preset_normal
      ⟨.FUZZY_MODE_TANK, .FUZZY_CURVE_LINEAR, 0, 0, 0, 0, true, false⟩ ≠
    fuzzy_control_preset_normal
      ⟨.FUZZY_MODE_TANK, .FUZZY_CURVE_LINEAR, 0, 0, 0, 0, false, false⟩ :=
  ⟨rfl, rfl, fun h => absurd (congrArg fuzzy_config_t.invert_left h) (by decide)⟩

/-- C7 (amended): each preset assigns, in one call, exactly the six
preset-table fields (mode, curve, dead_zone, turn_factor, max_duty,
min_duty) to that preset's row — e.g. after `normal`: Arcade, Quadratic,
0.08, 0.7, 255, 35 — while the two inversion flags, which no preset row
defines, retain their prior values. -/
theorem preset_assigns_table_row (c : fuzzy_config_t) :
    fuzzy_control_preset_gentle c =
      ⟨.FUZZY_MODE_SMOOTH, .FUZZY_CURVE_QUADRATIC, 0.10, 0.5, 180, 40,
       c.invert_left, c.invert_right⟩ ∧
    fuzzy_control_preset_normal c =
      ⟨.FUZZY_MODE_ARCADE, .FUZZY_CURVE_QUADRATIC, 0.08, 0.7, 255, 35,
       c.invert_left, c.invert_right⟩ ∧
    fuzzy_control_preset_aggressive c =
      ⟨.FUZZY_MODE_TANK, .FUZZY_CURVE_LINEAR, 0.05, 1.0, 255, 30,
       c.invert_left, c.invert_right⟩ ∧
    fuzzy_control_preset_precision c =
      ⟨.FUZZY_MODE_CAR, .FUZZY_CURVE_CUBIC, 0.08, 0.6, 150, 40,
       c.invert_left, c.invert_right⟩ :=
  ⟨rfl, rfl, rfl, rfl⟩

/-! ## Claims about the dead zone -/

/-- C10: `apply_dead_zone` divides by `1 - dead_zone` with no guard: for
every `dead_zone < 1` the executed division has a non-zero divisor, but at
the boundary `dead_zone = 1` — permitted by the invariant
`0 ≤ dead_zone ≤ 1` — any magnitude ≥ dead_zone reaches a division whose
divisor is zero. -/
theorem dead_zone_division_guard :
    (∀ m dz : ℝ, ¬ m < dz →
      apply_dead_zone m dz = (m - dz) / apply_dead_zone_denominator dz) ∧
    (∀ m dz : ℝ, dz < 1 → apply_dead_zone_div_defined m dz) ∧
    ((0 : ℝ) ≤ 1 ∧ (1 : ℝ) ≤ 1 ∧ ¬ apply_dead_zone_div_defined 1 1) := by
  refine ⟨fun m dz h => by simp [apply_dead_zone, h, apply_dead_zone_denominator],
          fun m dz h => Or.inr ?_, by norm_num, le_refl 1, ?_⟩
  · simp only [apply_dead_zone_denominator]
    intro hc
    nlinarith [sub_eq_zero.mp hc]
  · simp [apply_dead_zone_div_defined, apply_dead_zone_denominator]

/-- C10 witness: the guarded facts at dead_zone = 1/2. -/
theorem dead_zone_division_guard_witness :
    (¬ (1 : ℝ) < 1 / 2 ∧
      apply_dead_zone 1 (1 / 2) = (1 - 1 / 2) / apply_dead_zone_denominator (1 / 2)) ∧
    ((1 / 2 : ℝ) < 1 ∧ apply_dead_zone_div_defined 0 (1 / 2)) :=
  ⟨⟨by norm_num, dead_zone_division_guard.1 1 (1 / 2) (by norm_num)⟩,
   ⟨by norm_num, dead_zone_division_guard.2.1 0 (1 / 2) (by norm_num)⟩⟩

/-! ## Claims about dead-zone rejection and rescaling -/

/-- C4: for every angle, mode and configuration, a magnitude strictly
below the dead zone makes the mapper output exactly (0,0); otherwise the
mapper runs the rest of the pipeline (zero shortcut, curve shaping, angle
normalization, mode mapping, duty floor, inversion) on the rescaled
magnitude `(magnitude - dead_zone) / (1 - dead_zone)`. -/
theorem dead_zone_rejection_rescale (angle magnitude : ℝ) (config : fuzzy_config_t) :
    (magnitude < config.dead_zone →
      fuzzy_control_process angle magnitude config = ⟨0, 0⟩) ∧
    (¬ magnitude < config.dead_zone →
      fuzzy_control_process angle magnitude config =
        fuzzy_process_shaped angle
          ((magnitude - config.dead_zone) / (1 - config.dead_zone)) config) := by
  constructor
  · intro h
    unfold fuzzy_control_process apply_dead_zone
    rw [if_pos h]
    unfold fuzzy_process_shaped
    rw [if_pos rfl]
  · intro h
    unfold fuzzy_control_process apply_dead_zone
    rw [if_neg h]

/-- C4 witness: with the init configuration (dead_zone = 0.08), magnitude
1/20 is rejected to (0,0) and magnitude 1/2 is rescaled. -/
theorem dead_zone_rejection_rescale_witness :
    ((1 / 20 : ℝ) < fuzzy_control_init_config.dead_zone ∧
      fuzzy_control_process 0 (1 / 20) fuzzy_control_init_config = ⟨0, 0⟩) ∧
    (¬ (1 / 2 : ℝ) < fuzzy_control_init_config.dead_zone ∧
      fuzzy_control_process 0 (1 / 2) fuzzy_control_init_config =
        fuzzy_process_shaped 0
          ((1 / 2 - fuzzy_control_init_config.dead_zone) /
            (1 - fuzzy_control_init_config.dead_zone)) fuzzy_control_init_config) :=
  ⟨⟨by norm_num [fuzzy_control_init_config],
    (dead_zone_rejection_rescale 0 (1 / 20) fuzzy_control_init_config).1
      (by norm_num [fuzzy_control_init_config])⟩,
   ⟨by norm_num [fuzzy_control_init_config],
    (dead_zone_rejection_rescale 0 (1 / 2) fuzzy_control_init_config).2
      (by norm_num [fuzzy_control_init_config])⟩⟩

/-! ## Claims about odometry distance accumulation -/

/-- C6: cumulative distance can decrease: a wheel rotating backward
(current count 0 after a baseline of 1000) over a positive interval makes
`encoder_update` add a negative distance delta, taking the cumulative
distance strictly below its previous value. -/
theorem distance_decrease_counterexample :
    (encoder_update_wheel 0 60000000 ENCODER_CPR (wheel_circumference_m 65)
        ⟨1000, 0, 0, 0⟩).distance_m
      < (⟨1000, 0, 0, 0⟩ : encoder_instance_t).distance_m := by
  have hcirc : 0 < wheel_circumference_m 65 := by
    unfold wheel_circumference_m
    positivity
  have hcpr : 0 < ENCODER_CPR := by
    unfold ENCODER_CPR ENCODER_PPR ENCODER_PULSES_PER_3_REVS
    norm_num
  show (0 : ℝ) + ((0 - 1000 : ℤ) : ℝ) / ENCODER_CPR * wheel_circumference_m 65 < 0
  have hneg : (((0 - 1000 : ℤ) : ℝ)) / ENCODER_CPR < 0 := by
    apply div_neg_of_neg_of_pos _ hcpr
    norm_num
  nlinarith

/-- C6 (amended): an `encoder_update` sampling pass leaves a wheel's
cumulative distance greater than or equal to its previous value whenever
the counter delta since the last sample is non-negative (forward or no
rotation); a backward net rotation adds a negative delta instead. -/
theorem distance_monotone_forward (cc ct : ℤ) (cpr circ : ℝ)
    (e : encoder_instance_t) (hcount : e.last_count ≤ cc)
    (hcpr : 0 < cpr) (hcirc : 0 ≤ circ) :
    e.distance_m ≤ (encoder_update_wheel cc ct cpr circ e).distance_m := by
  unfold encoder_update_wheel
  by_cases h : ct - e.last_time_us > 0
  · rw [if_pos h]
    show e.distance_m ≤ e.distance_m + ((cc - e.last_count : ℤ) : ℝ) / cpr * circ
    have hrev : (0 : ℝ) ≤ ((cc - e.last_count : ℤ) : ℝ) / cpr :=
      div_nonneg (by exact_mod_cast sub_nonneg.mpr hcount) hcpr.le
    nlinarith
  · rw [if_neg h]

/-- C6 witness: a forward sample (counter 0 → 1000 over one second) does
not decrease the distance. -/
theorem distance_monotone_forward_witness :
    ((⟨0, 0, 0, 0⟩ : encoder_instance_t).last_count ≤ 1000 ∧ (0 : ℝ) < ENCODER_CPR ∧
      (0 : ℝ) ≤ 1) ∧
    (⟨0, 0, 0, 0⟩ : encoder_instance_t).distance_m ≤
      (encoder_update_wheel 1000 1000000 ENCODER_CPR 1 ⟨0, 0, 0, 0⟩).distance_m :=
  ⟨⟨by norm_num, by norm_num [ENCODER_CPR, ENCODER_PPR, ENCODER_PULSES_PER_3_REVS], by norm_num⟩,
   distance_monotone_forward 1000 1000000 ENCODER_CPR 1 ⟨0, 0, 0, 0⟩ (by norm_num)
     (by norm_num [ENCODER_CPR, ENCODER_PPR, ENCODER_PULSES_PER_3_REVS]) (by norm_num)⟩

/-! ## Claims about Car mode -/

/-- On `[0, 2π)` the normalization loop of fuzzy_control.c is the
identity. -/
theorem normalize_angle_eq_self (x : ℝ) (h0 : 0 ≤ x) (h1 : x < 2 * Real.pi) :
    normalize_angle x = x := by
  unfold normalize_angle
  have h2pi : (0 : ℝ) < 2 * Real.pi := by positivity
  have hfl : ⌊x / (2 * Real.pi)⌋ = 0 := by
    rw [Int.floor_eq_zero_iff]
    constructor
    · exact div_nonneg h0 h2pi.le
    · rw [div_lt_one h2pi]
      exact h1
  rw [hfl]
  simp

/-- C8: at angle π/3 the (normalized) angle has positive cosine — a turn
toward the right side — yet the code leaves the left wheel (the side away
from the turn) at the unreduced base speed and applies the `(1-reduction)`
factor to the right wheel, refuting the claim that the away-side wheel is
the one reduced. -/
theorem car_mode_away_wheel_counterexample :
    0 < Real.cos (normalize_angle (Real.pi / 3)) ∧
    (car_mode_speeds (Real.pi / 3) 1 fuzzy_control_init_config).1 =
      Real.sin (Real.pi / 3) ∧
    (car_mode_speeds (Real.pi / 3) 1 fuzzy_control_init_config).1 ≠
      Real.sin (Real.pi / 3) *
        (1 - |Real.cos (Real.pi / 3)| * fuzzy_control_init_config.turn_factor) := by
  have hn : normalize_angle (Real.pi / 3) = Real.pi / 3 :=
    normalize_angle_eq_self _ (by positivity) (by nlinarith [Real.pi_pos])
  have hcos : Real.cos (Real.pi / 3) = 1 / 2 := Real.cos_pi_div_three
  have hsin : Real.sin (Real.pi / 3) = Real.sqrt 3 / 2 := Real.sin_pi_div_three
  have hcpos : (0 : ℝ) < Real.cos (Real.pi / 3) := by rw [hcos]; norm_num
  have hs3 : (0 : ℝ) < Real.sqrt 3 := Real.sqrt_pos.mpr (by norm_num)
  refine ⟨by rw [hn]; exact hcpos, ?_, ?_⟩
  · simp only [car_mode_speeds, hn]
    rw [if_pos hcpos]
    ring
  · simp only [car_mode_speeds, hn]
    rw [if_pos hcpos]
    simp only [fuzzy_control_init_config, hcos, hsin]
    intro hcontra
    rw [abs_of_pos (by norm_num : (0:ℝ) < 1/2)] at hcontra
    nlinarith

/-- C8 (amended): in Car mode, with shaped magnitude m and normalized
angle θ, base = m·sin θ and reduction = |cos θ|·turn_factor; the wheel on
the side of the turn direction (the inside wheel, selected by the sign of
cos θ: the right wheel when cos θ > 0, the left wheel otherwise) receives
base·(1−reduction), while the wheel away from the turn receives base
unmodified. -/
theorem car_mode_inside_wheel_reduction (angle magnitude : ℝ)
    (config : fuzzy_config_t) :
    (0 < Real.cos (normalize_angle angle) →
      car_mode_speeds angle magnitude config =
        (magnitude * Real.sin (normalize_angle angle),
         magnitude * Real.sin (normalize_angle angle) *
           (1 - |Real.cos (normalize_angle angle)| * config.turn_factor))) ∧
    (¬ 0 < Real.cos (normalize_angle angle) →
      car_mode_speeds angle magnitude config =
        (magnitude * Real.sin (normalize_angle angle) *
           (1 - |Real.cos (normalize_angle angle)| * config.turn_factor),
         magnitude * Real.sin (normalize_angle angle))) := by
  constructor
  · intro h
    simp only [car_mode_speeds]
    rw [if_pos h]
    refine Prod.ext ?_ ?_ <;> dsimp only <;> ring
  · intro h
    simp only [car_mode_speeds]
    rw [if_neg h]
    refine Prod.ext ?_ ?_ <;> dsimp only <;> ring

/-- C8 witness: the amended Car-mode formula evaluated at angle π/3,
magnitude 1, under the init configuration. -/
theorem car_mode_inside_wheel_reduction_witness :
    0 < Real.cos (normalize_angle (Real.pi / 3)) ∧
    car_mode_speeds (Real.pi / 3) 1 fuzzy_control_init_config =
      (1 * Real.sin (normalize_angle (Real.pi / 3)),
       1 * Real.sin (normalize_angle (Real.pi / 3)) *
         (1 - |Real.cos (normalize_angle (Real.pi / 3))| *
           fuzzy_control_init_config.turn_factor)) := by
  have hn : normalize_angle (Real.pi / 3) = Real.pi / 3 :=
    normalize_angle_eq_self _ (by positivity) (by nlinarith [Real.pi_pos])
  have hcpos : 0 < Real.cos (normalize_angle (Real.pi / 3)) := by
    rw [hn, Real.cos_pi_div_three]
    norm_num
  exact ⟨hcpos,
    (car_mode_inside_wheel_reduction (Real.pi / 3) 1 fuzzy_control_init_config).1 hcpos⟩

/-! ## Range lemmas for the Drive Mapper pipeline -/

/-- The dead-zone stage maps `[0,1]` magnitudes into `[0,1]` for any dead
zone in `[0,1]`. -/
theorem apply_dead_zone_mem (m dz : ℝ) (hm0 : 0 ≤ m) (hm1 : m ≤ 1)
    (hdz0 : 0 ≤ dz) (hdz1 : dz ≤ 1) :
    0 ≤ apply_dead_zone m dz ∧ apply_dead_zone m dz ≤ 1 := by
  unfold apply_dead_zone
  split_ifs with h
  · norm_num
  · push_neg at h
    rcases lt_or_eq_of_le hdz1 with hlt | heq
    · have hden : (0 : ℝ) < 1 - dz := by linarith
      constructor
      · apply div_nonneg _ hden.le
        linarith
      · rw [div_le_one hden]
        linarith
    · rw [heq]
      simp

/-- Every curve shape maps `[0,1]` into `[0,1]`. -/
theorem apply_curve_mem (m : ℝ) (c : fuzzy_curve_type_t)
    (hm0 : 0 ≤ m) (hm1 : m ≤ 1) :
    0 ≤ apply_curve m c ∧ apply_curve m c ≤ 1 := by
  cases c
  · exact ⟨hm0, hm1⟩
  · exact ⟨mul_nonneg hm0 hm0, by show m * m ≤ 1; nlinarith⟩
  · exact ⟨mul_nonneg (mul_nonneg hm0 hm0) hm0,
      by show m * m * m ≤ 1; nlinarith⟩
  · exact ⟨Real.sqrt_nonneg m, Real.sqrt_le_one.mpr hm1⟩

/-- Clamping into `[-1,1]` bounds the absolute value by 1. -/
theorem clamp_abs_le (v : ℝ) : |clamp v (-1) 1| ≤ 1 := by
  unfold clamp
  split_ifs with h1 h2
  · rw [abs_neg, abs_one]
  · rw [abs_one]
  · push_neg at h1 h2
    rw [abs_le]
    exact ⟨h1, h2⟩

/-- Truncation toward zero of a speed in `[-1,1]` scaled by a non-negative
`max_duty` stays within `max_duty` in absolute value. -/
theorem truncInt_duty_bound (s : ℝ) (M : ℤ) (hs : |s| ≤ 1) (hM : 0 ≤ M) :
    |truncInt (s * (M : ℝ))| ≤ M := by
  have hMR : (0 : ℝ) ≤ (M : ℝ) := by exact_mod_cast hM
  have hxb : |s * (M : ℝ)| ≤ (M : ℝ) := by
    rw [abs_mul, abs_of_nonneg hMR]
    nlinarith [abs_nonneg s]
  rw [abs_le] at hxb
  unfold truncInt
  split_ifs with h
  · have h1 : (0 : ℤ) ≤ ⌊s * (M : ℝ)⌋ := Int.floor_nonneg.mpr h
    have h2 : ((⌊s * (M : ℝ)⌋ : ℤ) : ℝ) ≤ (M : ℝ) :=
      le_trans (Int.floor_le _) hxb.2
    rw [abs_of_nonneg h1]
    exact_mod_cast h2
  · push_neg at h
    have h1 : ⌈s * (M : ℝ)⌉ ≤ 0 := Int.ceil_le.mpr (by exact_mod_cast h.le)
    have h2 : ((-⌈s * (M : ℝ)⌉ : ℤ) : ℝ) ≤ (M : ℝ) := by
      push_cast
      have h3 := Int.le_ceil (s * (M : ℝ))
      linarith [hxb.1]
    rw [abs_of_nonpos h1]
    exact_mod_cast h2

/-- The minimum-duty floor keeps the absolute duty within any ceiling that
dominates both the incoming duty and the floor itself. -/
theorem apply_min_duty_abs_le (d mn mx : ℤ) (hmn : 0 ≤ mn) (hmx : mn ≤ mx)
    (hd : |d| ≤ mx) : |apply_min_duty d mn| ≤ mx := by
  rw [abs_le] at hd
  unfold apply_min_duty
  split_ifs <;> rw [abs_le] <;> omega

/-- A non-zero result of the minimum-duty floor has absolute value at
least the floor. -/
theorem apply_min_duty_floor (d mn : ℤ) (hmn : 0 ≤ mn)
    (h : apply_min_duty d mn ≠ 0) : mn ≤ |apply_min_duty d mn| := by
  unfold apply_min_duty at h ⊢
  split_ifs at h ⊢ with h1 h2 h3
  · exact absurd rfl h
  · rw [le_abs]
    omega
  · rw [le_abs]
    omega
  · rw [le_abs]
    omega

/-- Per-side inversion preserves the absolute duty. -/
theorem invert_abs (b : Bool) (x : ℤ) : |if b then -x else x| = |x| := by
  cases b
  · rfl
  · exact abs_neg x

/-- Per-side inversion preserves non-zeroness. -/
theorem invert_ne_zero (b : Bool) (x : ℤ) :
    (if b then -x else x) ≠ 0 ↔ x ≠ 0 := by
  cases b
  · exact Iff.rfl
  · simp

/-- Product of two reals of absolute value at most 1. -/
theorem abs_mul_le_one (x y : ℝ) (hx : |x| ≤ 1) (hy : |y| ≤ 1) :
    |x * y| ≤ 1 := by
  rw [abs_mul]
  nlinarith [abs_nonneg x, abs_nonneg y]

/-- The arcade-mode duties are bounded by `max_duty`. -/
theorem process_arcade_mode_bound (a m : ℝ) (config : fuzzy_config_t)
    (hM : 0 ≤ config.max_duty) :
    |(process_arcade_mode a m config).left_duty| ≤ config.max_duty ∧
    |(process_arcade_mode a m config).right_duty| ≤ config.max_duty :=
  ⟨truncInt_duty_bound _ _ (clamp_abs_le _) hM,
   truncInt_duty_bound _ _ (clamp_abs_le _) hM⟩

/-- The tank-mode duties are bounded by `max_duty`. -/
theorem process_tank_mode_bound (a m : ℝ) (config : fuzzy_config_t)
    (hM : 0 ≤ config.max_duty) :
    |(process_tank_mode a m config).left_duty| ≤ config.max_duty ∧
    |(process_tank_mode a m config).right_duty| ≤ config.max_duty :=
  ⟨truncInt_duty_bound _ _ (clamp_abs_le _) hM,
   truncInt_duty_bound _ _ (clamp_abs_le _) hM⟩

/-- The smooth-mode duties are bounded by `max_duty`. -/
theorem process_smooth_mode_bound (a m : ℝ) (config : fuzzy_config_t)
    (hM : 0 ≤ config.max_duty) :
    |(process_smooth_mode a m config).left_duty| ≤ config.max_duty ∧
    |(process_smooth_mode a m config).right_duty| ≤ config.max_duty :=
  ⟨truncInt_duty_bound _ _ (clamp_abs_le _) hM,
   truncInt_duty_bound _ _ (clamp_abs_le _) hM⟩

/-- Car-mode speeds have absolute value at most 1 whenever the shaped
magnitude lies in `[0,1]` and the turn factor in `[0,1]`. -/
theorem car_mode_speeds_abs_le (a m : ℝ) (config : fuzzy_config_t)
    (htf0 : 0 ≤ config.turn_factor) (htf1 : config.turn_factor ≤ 1)
    (hm0 : 0 ≤ m) (hm1 : m ≤ 1) :
    |(car_mode_speeds a m config).1| ≤ 1 ∧
    |(car_mode_speeds a m config).2| ≤ 1 := by
  have hm : |m| ≤ 1 := by
    rw [abs_le]
    constructor <;> linarith
  have hsin : |Real.sin (normalize_angle a)| ≤ 1 := Real.abs_sin_le_one _
  have hcos : |Real.cos (normalize_angle a)| ≤ 1 := Real.abs_cos_le_one _
  have hfac : |1 - |Real.cos (normalize_angle a)| * config.turn_factor| ≤ 1 := by
    have h0 : 0 ≤ |Real.cos (normalize_angle a)| * config.turn_factor :=
      mul_nonneg (abs_nonneg _) htf0
    have h1 : |Real.cos (normalize_angle a)| * config.turn_factor ≤ 1 :=
      mul_le_one₀ hcos htf0 htf1
    rw [abs_le]
    constructor <;> linarith
  simp only [car_mode_speeds]
  split_ifs with h
  · exact ⟨abs_mul_le_one _ _ hsin hm,
      abs_mul_le_one _ _ (abs_mul_le_one _ _ hsin hfac) hm⟩
  · exact ⟨abs_mul_le_one _ _ (abs_mul_le_one _ _ hsin hfac) hm,
      abs_mul_le_one _ _ hsin hm⟩

/-- The car-mode duties are bounded by `max_duty`. -/
theorem process_car_mode_bound (a m : ℝ) (config : fuzzy_config_t)
    (htf0 : 0 ≤ config.turn_factor) (htf1 : config.turn_factor ≤ 1)
    (hm0 : 0 ≤ m) (hm1 : m ≤ 1) (hM : 0 ≤ config.max_duty) :
    |(process_car_mode a m config).left_duty| ≤ config.max_duty ∧
    |(process_car_mode a m config).right_duty| ≤ config.max_duty := by
  obtain ⟨h1, h2⟩ := car_mode_speeds_abs_le a m config htf0 htf1 hm0 hm1
  exact ⟨truncInt_duty_bound _ _ h1 hM, truncInt_duty_bound _ _ h2 hM⟩

/-- The minimum-duty floor followed by optional inversion keeps both
duties within `mx` and pushes every non-zero duty to at least `mn`. -/
theorem duty_post_bounds (L R mn mx : ℤ) (il ir : Bool)
    (hmn : 0 ≤ mn) (hmx : mn ≤ mx) (hL : |L| ≤ mx) (hR : |R| ≤ mx) :
    |(if il then -(apply_min_duty L mn) else apply_min_duty L mn)| ≤ mx ∧
    |(if ir then -(apply_min_duty R mn) else apply_min_duty R mn)| ≤ mx ∧
    ((if il then -(apply_min_duty L mn) else apply_min_duty L mn) ≠ 0 →
      mn ≤ |(if il then -(apply_min_duty L mn) else apply_min_duty L mn)|) ∧
    ((if ir then -(apply_min_duty R mn) else apply_min_duty R mn) ≠ 0 →
      mn ≤ |(if ir then -(apply_min_duty R mn) else apply_min_duty R mn)|) := by
  refine ⟨?_, ?_, ?_, ?_⟩
  · rw [invert_abs]
    exact apply_min_duty_abs_le _ _ _ hmn hmx hL
  · rw [invert_abs]
    exact apply_min_duty_abs_le _ _ _ hmn hmx hR
  · intro h
    rw [invert_abs]
    exact apply_min_duty_floor _ _ hmn ((invert_ne_zero il _).mp h)
  · intro h
    rw [invert_abs]
    exact apply_min_duty_floor _ _ hmn ((invert_ne_zero ir _).mp h)

/-- Bounds for the post-dead-zone tail of the mapper: for any mode, curve
and already-rescaled magnitude in `[0,1]`, both duties stay within
`max_duty` and every non-zero duty is at least `min_duty`. -/
theorem fuzzy_process_shaped_bounds (angle m : ℝ) (config : fuzzy_config_t)
    (htf0 : 0 ≤ config.turn_factor) (htf1 : config.turn_factor ≤ 1)
    (hmin : 0 ≤ config.min_duty) (hminmax : config.min_duty ≤ config.max_duty)
    (hm0 : 0 ≤ m) (hm1 : m ≤ 1) :
    |(fuzzy_process_shaped angle m config).left_duty| ≤ config.max_duty ∧
    |(fuzzy_process_shaped angle m config).right_duty| ≤ config.max_duty ∧
    ((fuzzy_process_shaped angle m config).left_duty ≠ 0 →
      config.min_duty ≤ |(fuzzy_process_shaped angle m config).left_duty|) ∧
    ((fuzzy_process_shaped angle m config).right_duty ≠ 0 →
      config.min_duty ≤ |(fuzzy_process_shaped angle m config).right_duty|) := by
  obtain ⟨md, cv, dz, tf, mx, mn, il, ir⟩ := config
  dsimp only at htf0 htf1 hmin hminmax ⊢
  have hM : 0 ≤ mx := le_trans hmin hminmax
  obtain ⟨hc0, hc1⟩ := apply_curve_mem m cv hm0 hm1
  unfold fuzzy_process_shaped
  by_cases h0 : m = 0
  · rw [if_pos h0]
    refine ⟨by simpa using hM, by simpa using hM, ?_, ?_⟩
    · intro h
      exact absurd rfl h
    · intro h
      exact absurd rfl h
  · rw [if_neg h0]
    dsimp only
    cases md
    · exact duty_post_bounds _ _ _ _ il ir hmin hminmax
        (process_arcade_mode_bound (normalize_angle angle) (apply_curve m cv)
          ⟨.FUZZY_MODE_ARCADE, cv, dz, tf, mx, mn, il, ir⟩ hM).1
        (process_arcade_mode_bound (normalize_angle angle) (apply_curve m cv)
          ⟨.FUZZY_MODE_ARCADE, cv, dz, tf, mx, mn, il, ir⟩ hM).2
    · exact duty_post_bounds _ _ _ _ il ir hmin hminmax
        (process_tank_mode_bound (normalize_angle angle) (apply_curve m cv)
          ⟨.FUZZY_MODE_TANK, cv, dz, tf, mx, mn, il, ir⟩ hM).1
        (process_tank_mode_bound (normalize_angle angle) (apply_curve m cv)
          ⟨.FUZZY_MODE_TANK, cv, dz, tf, mx, mn, il, ir⟩ hM).2
    · exact duty_post_bounds _ _ _ _ il ir hmin hminmax
        (process_car_mode_bound (normalize_angle angle) (apply_curve m cv)
          ⟨.FUZZY_MODE_CAR, cv, dz, tf, mx, mn, il, ir⟩ htf0 htf1 hc0 hc1 hM).1
        (process_car_mode_bound (normalize_angle angle) (apply_curve m cv)
          ⟨.FUZZY_MODE_CAR, cv, dz, tf, mx, mn, il, ir⟩ htf0 htf1 hc0 hc1 hM).2
    · exact duty_post_bounds _ _ _ _ il ir hmin hminmax
        (process_smooth_mode_bound (normalize_angle angle) (apply_curve m cv)
          ⟨.FUZZY_MODE_SMOOTH, cv, dz, tf, mx, mn, il, ir⟩ hM).1
        (process_smooth_mode_bound (normalize_angle angle) (apply_curve m cv)
          ⟨.FUZZY_MODE_SMOOTH, cv, dz, tf, mx, mn, il, ir⟩ hM).2

/-- C3: for every configuration satisfying the DriveConfig invariants
(dead_zone, turn_factor in [0,1], 0 ≤ min_duty ≤ max_duty) and every
joystick input with magnitude in [0,1], the mapper's output satisfies
|left_duty| ≤ max_duty and |right_duty| ≤ max_duty, and every non-zero
output duty satisfies |duty| ≥ min_duty. -/
theorem drive_mapper_duty_bounds (angle magnitude : ℝ) (config : fuzzy_config_t)
    (hdz0 : 0 ≤ config.dead_zone) (hdz1 : config.dead_zone ≤ 1)
    (htf0 : 0 ≤ config.turn_factor) (htf1 : config.turn_factor ≤ 1)
    (hmin : 0 ≤ config.min_duty) (hminmax : config.min_duty ≤ config.max_duty)
    (hm0 : 0 ≤ magnitude) (hm1 : magnitude ≤ 1) :
    |(fuzzy_control_process angle magnitude config).left_duty| ≤ config.max_duty ∧
    |(fuzzy_control_process angle magnitude config).right_duty| ≤ config.max_duty ∧
    ((fuzzy_control_process angle magnitude config).left_duty ≠ 0 →
      config.min_duty ≤ |(fuzzy_control_process angle magnitude config).left_duty|) ∧
    ((fuzzy_control_process angle magnitude config).right_duty ≠ 0 →
      config.min_duty ≤ |(fuzzy_control_process angle magnitude config).right_duty|) := by
  obtain ⟨hz0, hz1⟩ :=
    apply_dead_zone_mem magnitude config.dead_zone hm0 hm1 hdz0 hdz1
  unfold fuzzy_control_process
  exact fuzzy_process_shaped_bounds angle
    (apply_dead_zone magnitude config.dead_zone) config htf0 htf1 hmin hminmax hz0 hz1

/-- C3 witness: the duty bounds at full forward deflection (angle 0,
magnitude 1) under the init configuration. -/
theorem drive_mapper_duty_bounds_witness :
    ((0 : ℝ) ≤ fuzzy_control_init_config.dead_zone ∧
      fuzzy_control_init_config.dead_zone ≤ 1 ∧
      (0 : ℝ) ≤ fuzzy_control_init_config.turn_factor ∧
      fuzzy_control_init_config.turn_factor ≤ 1 ∧
      (0 : ℤ) ≤ fuzzy_control_init_config.min_duty ∧
      fuzzy_control_init_config.min_duty ≤ fuzzy_control_init_config.max_duty ∧
      (0 : ℝ) ≤ 1 ∧ (1 : ℝ) ≤ 1) ∧
    (|(fuzzy_control_process 0 1 fuzzy_control_init_config).left_duty| ≤
        fuzzy_control_init_config.max_duty ∧
      |(fuzzy_control_process 0 1 fuzzy_control_init_config).right_duty| ≤
        fuzzy_control_init_config.max_duty ∧
      ((fuzzy_control_process 0 1 fuzzy_control_init_config).left_duty ≠ 0 →
        fuzzy_control_init_config.min_duty ≤
          |(fuzzy_control_process 0 1 fuzzy_control_init_config).left_duty|) ∧
      ((fuzzy_control_process 0 1 fuzzy_control_init_config).right_duty ≠ 0 →
        fuzzy_control_init_config.min_duty ≤
          |(fuzzy_control_process 0 1 fuzzy_control_init_config).right_duty|)) :=
  ⟨by norm_num [fuzzy_control_init_config],
   drive_mapper_duty_bounds 0 1 fuzzy_control_init_config
     (by norm_num [fuzzy_control_init_config]) (by norm_num [fuzzy_control_init_config])
     (by norm_num [fuzzy_control_init_config]) (by norm_num [fuzzy_control_init_config])
     (by norm_num [fuzzy_control_init_config]) (by norm_num [fuzzy_control_init_config])
     (by norm_num) (by norm_num)⟩

end ThermoRover
